import Mathlib

/-!
Verification of the atomkv in-memory key-value engine (`database.go`).

The engine state (fields `values`, `subscriptions`, `subscribers` of the Go
`Database` struct, plus the buffered channels created by `Subscribe`) is
embedded as explicit association lists, and every engine operation that the
dispatch loop performs (`get`, `set`, `update`, `delete`, `subscribe`,
`unsubscribe`, `notify`) is a pure Lean function on that state.  Go channels
are modelled by numeric identifiers (`ChanId`); a channel's buffer is the
list held in `queues`, with the shared capacity `buflen`, and the
non-blocking `select { case s <- u: default: }` send becomes `sendEvt`,
which appends when the buffer has room and otherwise drops the event.
Revisions are mathematical integers (`Int`): the Go `int` cannot wrap in any
behaviour the specification talks about.  The time-based expiry supervisor
(`expire`) is real-time concurrency and is outside the embedding; the
`Subscribe`/`Delete` calls it performs are ordinary engine operations and
are covered by the reachability relation.  Go maps are embedded as
association lists whose keys stay unique (`ainsert` replaces in place, so
`aerase` removing every matching key agrees with Go's `delete`), and Go map
zero values (`entry{}` for a missing key, `subscriber{}` for an
unregistered channel, the `nil` channel) are modelled explicitly.
-/

/-- Channels are identified by the order of their creation. -/
abbrev ChanId : Type := Nat

/-- The `Update` event struct: `{Key, Value, Revision}`. -/
structure Update where
  key : String
  value : String
  revision : Int
deriving DecidableEq

/-- The stored `entry` struct: `{value, revision}`. -/
structure entry where
  value : String
  revision : Int
deriving DecidableEq

/-- The Go zero value of `entry`: empty string, revision 0. -/
def entry.zero : entry := ⟨"", 0⟩

/-- The `subscriber` struct: `{path, ch}`.  `ch` is an `Option` so that the
Go zero value (`nil` channel) of an unregistered lookup is representable. -/
structure Subscriber where
  path : String
  ch : Option ChanId
deriving DecidableEq

/-- The Go zero value of `subscriber`: empty path, `nil` channel. -/
def Subscriber.zero : Subscriber := ⟨"", none⟩

/-- Association-list lookup, the embedding of Go map indexing. -/
def alookup {α β : Type} [DecidableEq α] : List (α × β) → α → Option β
  | [], _ => none
  | (k0, v0) :: rest, k => if k = k0 then some v0 else alookup rest k

/-- Association-list store `m[k] = v`: replace the binding in place if the
key is present, otherwise append it. -/
def ainsert {α β : Type} [DecidableEq α] : List (α × β) → α → β → List (α × β)
  | [], k, v => [(k, v)]
  | (k0, v0) :: rest, k, v =>
      if k = k0 then (k, v) :: rest else (k0, v0) :: ainsert rest k v

/-- Association-list `delete(m, k)`: removes every binding of `k` (keys are
unique in every list the operations build, so this is Go's map delete). -/
def aerase {α β : Type} [DecidableEq α] : List (α × β) → α → List (α × β)
  | [], _ => []
  | (k0, v0) :: rest, k =>
      if k = k0 then aerase rest k else (k0, v0) :: aerase rest k

/-- The whole engine state owned by the dispatch goroutine, together with
the buffers of the subscriber channels and a counter producing fresh
channel identities. -/
structure DBState where
  values : List (String × entry)
  subscriptions : List (String × List ChanId)
  subscribers : List (ChanId × Subscriber)
  queues : List (ChanId × List Update)
  buflen : Nat
  nextChan : Nat
deriving DecidableEq

/-- NewDatabase: empty maps; `buflen == 0` falls back to `defaultBuflen = 64`. -/
def initDB (buflen : Nat) : DBState :=
  { values := [], subscriptions := [], subscribers := [], queues := [],
    buflen := if buflen = 0 then 64 else buflen, nextChan := 0 }

/-- The contents of a channel's buffer (empty for a foreign channel). -/
def queueOf (st : DBState) (ch : ChanId) : List Update :=
  (alookup st.queues ch).getD []

/-- Index of the last '/' in a list of characters, if any
(`strings.LastIndexByte(s, '/')`). -/
def lastSlashIdx : List Char → Option Nat
  | [] => none
  | c :: rest =>
      match lastSlashIdx rest with
      | some i => some (i + 1)
      | none => if c = '/' then some 0 else none

/-- One truncation step of the `notify` loop:
`slash := strings.LastIndexByte(part[:len(part)-1], '/')`; `none` when
`slash == -1` (loop break), otherwise `part[:slash+1]`. -/
def truncPart (part : String) : Option String :=
  match lastSlashIdx part.data.dropLast with
  | none => none
  | some i => some (String.mk (part.data.take (i + 1)))

/-- Fuel-indexed unfolding of the `notify` truncation loop, collecting the
successive values of `part`.  Each truncation strictly shortens the string,
so `length + 1` fuel always suffices. -/
def partsGo : Nat → String → List String
  | 0, _ => []
  | n + 1, part =>
      part :: (match truncPart part with
               | none => []
               | some p => partsGo n p)

/-- The sequence of prefixes `notify` looks up in `d.subscriptions`,
starting with the full key. -/
def notifyParts (key : String) : List String :=
  partsGo (key.data.length + 1) key

/-- Non-blocking send of an event on a channel:
`select { case s <- u: default: }`.  Appends if the buffer has room,
otherwise drops the event; a send on a channel with no buffer (the `nil`
channel) hits `default` as well. -/
def sendEvt (st : DBState) (ch : ChanId) (u : Update) : DBState :=
  match alookup st.queues ch with
  | some q =>
      if q.length < st.buflen
      then { st with queues := ainsert st.queues ch (q ++ [u]) }
      else st
  | none => st

/-- The inner `for s := range m` loop of `notify`: deliver to each member
not yet in `seen`, recording it in `seen`. -/
def notifyFan (u : Update) : List ChanId → List ChanId → DBState → List ChanId × DBState
  | [], seen, st => (seen, st)
  | s :: rest, seen, st =>
      if s ∈ seen then notifyFan u rest seen st
      else notifyFan u rest (s :: seen) (sendEvt st s u)

/-- The outer loop of `notify` over the successive prefixes. -/
def notifyLoop (u : Update) : List String → List ChanId → DBState → DBState
  | [], _, st => st
  | p :: rest, seen, st =>
      let fanned := notifyFan u ((alookup st.subscriptions p).getD []) seen st
      notifyLoop u rest fanned.1 fanned.2

/-- `notify(key, e)`: walk the truncation prefixes with a fresh `seen` set,
delivering `Update{key, e.value, e.revision}` at most once per channel. -/
def notify (key : String) (e : entry) (st : DBState) : DBState :=
  notifyLoop ⟨key, e.value, e.revision⟩ (notifyParts key) [] st

/-- The engine-internal `get`: `e, ok := d.values[key]`, with the zero
`entry` when absent. -/
def getE (st : DBState) (key : String) : entry × Bool :=
  match alookup st.values key with
  | some e => (e, true)
  | none => (entry.zero, false)

/-- The current revision of a key, `-1` when absent (the quantity the CAS
in `update` compares against). -/
def curRev (st : DBState) (key : String) : Int :=
  match alookup st.values key with
  | some e => e.revision
  | none => -1

/-- The engine-internal `set`: increment the revision if the key exists
(zero `entry` gives revision 0 otherwise), overwrite the value, store, and
notify.  The `go d.expire(key)` spawn on a fresh key is real-time
concurrency and not part of this state transition. -/
def setKey (st : DBState) (key value : String) : DBState :=
  let g := getE st key
  let e1 := if g.2 then { g.1 with revision := g.1.revision + 1 } else g.1
  let e2 := { e1 with value := value }
  notify key e2 { st with values := ainsert st.values key e2 }

/-- The engine-internal `update` (CAS): treat an absent key as revision
`-1`; fail (returning `false` with the state untouched) unless
`e.revision + 1 == revision`; otherwise store `entry{value, revision}` and
notify. -/
def update (st : DBState) (key value : String) (revision : Int) : Bool × DBState :=
  let g := getE st key
  let cur : Int := if g.2 then g.1.revision else -1
  if cur + 1 ≠ revision then (false, st)
  else (true, notify key ⟨value, revision⟩
                { st with values := ainsert st.values key ⟨value, revision⟩ })

/-- The dispatch arm for `Delete`: `delete(d.values, key)`, nothing else. -/
def deleteKey (st : DBState) (key : String) : DBState :=
  { st with values := aerase st.values key }

/-- The engine-internal `subscribe(path, ch)`: add `ch` to the path's set
(creating the set if needed — adding an already-present member is the
identity, as for a Go map key) and record the reverse index entry. -/
def subscribeReg (st : DBState) (path : String) (ch : ChanId) : DBState :=
  let m := (alookup st.subscriptions path).getD []
  let m1 := if ch ∈ m then m else m ++ [ch]
  { st with subscriptions := ainsert st.subscriptions path m1,
            subscribers := ainsert st.subscribers ch ⟨path, some ch⟩ }

/-- The public `Subscribe` state transition: make a fresh channel with an
empty buffer of capacity `buflen`, then register it. -/
def subscribeOp (st : DBState) (path : String) : ChanId × DBState :=
  let ch : ChanId := st.nextChan
  (ch, subscribeReg
        { st with nextChan := st.nextChan + 1, queues := ainsert st.queues ch [] }
        path ch)

/-- The engine-internal `unsubscribe(ch)`: read the reverse index (Go zero
`subscriber` when absent), delete it, remove `sub.ch` from the set at
`sub.path` (removing a `nil` channel changes nothing), and drop the path
binding when the set became empty.  A surviving set is mutated in place in
Go, hence the write-back via `ainsert`. -/
def unsubscribeReg (st : DBState) (ch : ChanId) : DBState :=
  let sub := (alookup st.subscribers ch).getD Subscriber.zero
  let m := (alookup st.subscriptions sub.path).getD []
  let m1 := match sub.ch with
            | some c => m.erase c
            | none => m
  let subs1 := if m1.length = 0 then aerase st.subscriptions sub.path
               else ainsert st.subscriptions sub.path m1
  { st with subscribers := aerase st.subscribers ch, subscriptions := subs1 }

/-- The `validate` guard of the exported operations: `true` exactly when the
key is non-empty and starts with '/'; `false` is a panic in Go. -/
def validate (key : String) : Bool :=
  match key.data with
  | [] => false
  | c :: _ => c = '/'

/-- The exported `Get`: panic (`none`) unless `validate` passes, otherwise
the `(value, revision, ok)` triple from the store. -/
def GetOp (st : DBState) (key : String) : Option (String × Int × Bool) :=
  if validate key then
    let g := getE st key
    some (g.1.value, g.1.revision, g.2)
  else none

/-- The exported `Set`: panic (`none`) unless `validate` passes. -/
def SetOp (st : DBState) (key value : String) : Option DBState :=
  if validate key then some (setKey st key value) else none

/-- The exported `Update`: panic (`none`) unless `validate` passes. -/
def UpdateOp (st : DBState) (key value : String) (revision : Int) :
    Option (Bool × DBState) :=
  if validate key then some (update st key value revision) else none

/-- The exported `Subscribe`: panic (`none`) unless `validate` passes. -/
def SubscribeOp (st : DBState) (path : String) : Option (ChanId × DBState) :=
  if validate path then some (subscribeOp st path) else none

/-- The exported `Delete` has no validate guard and always completes. -/
def DeleteOp (st : DBState) (key : String) : DBState :=
  deleteKey st key

/-- The exported `Unsubscribe` has no validate guard and always completes. -/
def UnsubscribeOp (st : DBState) (ch : ChanId) : DBState :=
  unsubscribeReg st ch

/-- One mutation request aimed at a fixed key: an unconditional `Set` or a
CAS `Update` with an expected revision. -/
inductive Op where
  | setV (value : String)
  | updV (value : String) (revision : Int)
deriving DecidableEq

/-- Apply a mutation to the key, returning whether it succeeded (a `Set`
always does; an `Update` reports its CAS result). -/
def applyOp (st : DBState) (key : String) : Op → Bool × DBState
  | Op.setV v => (true, setKey st key v)
  | Op.updV v r => update st key v r

/-- Run a sequence of mutations of one key, recording the key's stored
revision after each successful one (failed CAS attempts observe nothing). -/
def runObs (st : DBState) (key : String) : List Op → List Int
  | [] => []
  | op :: rest =>
      let a := applyOp st key op
      if a.1 then curRev a.2 key :: runObs a.2 key rest
      else runObs a.2 key rest

/-- States reachable from a freshly created database through the public
operations (`Get` does not change state; `Set`, `Update` and `Subscribe`
reach the engine only when `validate` passes; `Delete` and `Unsubscribe`
have no guard). -/
inductive Reachable : DBState → Prop where
  | init : ∀ b, Reachable (initDB b)
  | setR : ∀ st k v, Reachable st → validate k = true → Reachable (setKey st k v)
  | updateR : ∀ st k v r, Reachable st → validate k = true →
      Reachable (update st k v r).2
  | deleteR : ∀ st k, Reachable st → Reachable (deleteKey st k)
  | subscribeR : ∀ st p, Reachable st → validate p = true →
      Reachable (subscribeOp st p).2
  | unsubscribeR : ∀ st ch, Reachable st → Reachable (unsubscribeReg st ch)

/-- Repeated delivery of a sequence of events to one handle's buffer (the
effect on that buffer of successive matching notifications). -/
def deliverSeq (st : DBState) (ch : ChanId) : List Update → DBState
  | [] => st
  | u :: rest => deliverSeq (sendEvt st ch u) ch rest

/-- Scenario: subscribe to the subtree `/a/` (handle 0), then mutate
`/a/b`, `/a/c`, `/a/b/c` and `/x`. -/
def demoSubtree : DBState :=
  setKey (setKey (setKey (setKey (subscribeOp (initDB 0) "/a/").2
    "/a/b" "1") "/a/c" "2") "/a/b/c" "3") "/x" "4"

/-- Scenario: subscribe to the exact key `/a/b` (handle 0), then mutate
`/a/b` and `/a/b/c`. -/
def demoExact : DBState :=
  setKey (setKey (subscribeOp (initDB 0) "/a/b").2 "/a/b" "1") "/a/b/c" "2"

/-- Scenario: one handle (0) registered at both `/a/` and `/a/b/` (the
second registration through the engine-internal `subscribe`), then a
mutation of `/a/b/c`. -/
def demoDual : DBState :=
  setKey (subscribeReg (subscribeOp (initDB 0) "/a/").2 "/a/b/" 0) "/a/b/c" "v"

/-- Scenario: buffer capacity 1, subscribe to `/s/` (handle 0), then two
mutations under `/s/` with no consumption in between. -/
def demoDrop : DBState :=
  setKey (setKey (subscribeOp (initDB 1) "/s/").2 "/s/x" "1") "/s/y" "2"

/-- Equality of every state component except the channel buffers: `notify`
and its helpers touch only `queues`. -/
def FrameEq (a b : DBState) : Prop :=
  a.values = b.values ∧ a.subscriptions = b.subscriptions ∧
  a.subscribers = b.subscribers ∧ a.buflen = b.buflen ∧ a.nextChan = b.nextChan

/-- The bidirectional-registry invariant maintained by `subscribe` and
`unsubscribe`: every path bound in `subscriptions` has a non-empty,
duplicate-free member set; a channel belongs to a path's set exactly when
the reverse index `subscribers` maps it to that path (with the stored
channel field equal to the map key); and every registered channel is below
the fresh-channel counter. -/
def RegInv (st : DBState) : Prop :=
  (∀ p m, alookup st.subscriptions p = some m → m ≠ []) ∧
  (∀ p m, alookup st.subscriptions p = some m → m.Nodup) ∧
  (∀ p m ch, alookup st.subscriptions p = some m → ch ∈ m →
    alookup st.subscribers ch = some ⟨p, some ch⟩) ∧
  (∀ ch s, alookup st.subscribers ch = some s →
    s.ch = some ch ∧ ∃ m, alookup st.subscriptions s.path = some m ∧ ch ∈ m) ∧
  (∀ ch s, alookup st.subscribers ch = some s → ch < st.nextChan)

theorem alookup_ainsert {α β : Type} [DecidableEq α] (l : List (α × β)) (k k' : α) (v : β) :
    alookup (ainsert l k v) k' = if k' = k then some v else alookup l k' := by
  induction l with
  | nil => by_cases h : k' = k <;> simp [ainsert, alookup, h]
  | cons kv rest ih =>
      obtain ⟨k0, v0⟩ := kv
      simp only [ainsert]
      by_cases h : k = k0
      · subst h
        by_cases h' : k' = k <;> simp [alookup, h']
      · by_cases h' : k' = k0
        · subst h'
          have hne : ¬k' = k := fun hh => h hh.symm
          simp [alookup, h, hne]
        · simp [alookup, h, h', ih]

theorem alookup_aerase {α β : Type} [DecidableEq α] (l : List (α × β)) (k k' : α) :
    alookup (aerase l k) k' = if k' = k then none else alookup l k' := by
  induction l with
  | nil => by_cases h : k' = k <;> simp [aerase, alookup, h]
  | cons kv rest ih =>
      obtain ⟨k0, v0⟩ := kv
      simp only [aerase]
      by_cases h : k = k0
      · subst h
        by_cases h' : k' = k
        · subst h'
          simp [ih]
        · simp [alookup, h', ih]
      · by_cases h' : k' = k0
        · subst h'
          have hne : ¬k' = k := fun hh => h hh.symm
          simp [alookup, h, hne, ih]
        · simp [alookup, h, h', ih]

theorem ainsert_lookup_self {α β : Type} [DecidableEq α] (l : List (α × β)) (k : α) (v : β)
    (h : alookup l k = some v) : ainsert l k v = l := by
  induction l with
  | nil => simp [alookup] at h
  | cons kv rest ih =>
      obtain ⟨k0, v0⟩ := kv
      by_cases hk : k = k0
      · subst hk
        simp [alookup] at h
        simp [ainsert, h]
      · simp [alookup, hk] at h
        simp [ainsert, hk, ih h]

theorem aerase_absent {α β : Type} [DecidableEq α] (l : List (α × β)) (k : α)
    (h : alookup l k = none) : aerase l k = l := by
  induction l with
  | nil => simp [aerase]
  | cons kv rest ih =>
      obtain ⟨k0, v0⟩ := kv
      by_cases hk : k = k0
      · subst hk; simp [alookup] at h
      · simp [alookup, hk] at h
        simp [aerase, hk, ih h]

theorem FrameEq.refl (a : DBState) : FrameEq a a := ⟨rfl, rfl, rfl, rfl, rfl⟩

theorem FrameEq.trans {a b c : DBState} (h1 : FrameEq a b) (h2 : FrameEq b c) :
    FrameEq a c := by
  obtain ⟨e1, e2, e3, e4, e5⟩ := h1
  obtain ⟨f1, f2, f3, f4, f5⟩ := h2
  exact ⟨e1.trans f1, e2.trans f2, e3.trans f3, e4.trans f4, e5.trans f5⟩

theorem sendEvt_frame (st : DBState) (ch : ChanId) (u : Update) :
    FrameEq (sendEvt st ch u) st := by
  unfold sendEvt
  cases alookup st.queues ch with
  | none => exact FrameEq.refl st
  | some q =>
      by_cases h : q.length < st.buflen
      · simp only [h, if_pos]
        exact ⟨rfl, rfl, rfl, rfl, rfl⟩
      · simp only [h, if_neg, not_false_iff]
        exact FrameEq.refl st

theorem notifyFan_frame (u : Update) (m seen : List ChanId) (st : DBState) :
    FrameEq (notifyFan u m seen st).2 st := by
  induction m generalizing seen st with
  | nil => exact FrameEq.refl st
  | cons s rest ih =>
      simp only [notifyFan]
      by_cases h : s ∈ seen
      · simp only [h, if_pos]
        exact ih seen st
      · simp only [h, if_neg, not_false_iff]
        exact (ih (s :: seen) (sendEvt st s u)).trans (sendEvt_frame st s u)

theorem notifyLoop_frame (u : Update) (ps : List String) (seen : List ChanId) (st : DBState) :
    FrameEq (notifyLoop u ps seen st) st := by
  induction ps generalizing seen st with
  | nil => exact FrameEq.refl st
  | cons p rest ih =>
      simp only [notifyLoop]
      exact (ih _ _).trans (notifyFan_frame u _ seen st)

theorem notify_frame (key : String) (e : entry) (st : DBState) :
    FrameEq (notify key e st) st :=
  notifyLoop_frame _ _ _ _

theorem notify_values (key : String) (e : entry) (st : DBState) :
    (notify key e st).values = st.values :=
  (notify_frame key e st).1

theorem notify_subscriptions (key : String) (e : entry) (st : DBState) :
    (notify key e st).subscriptions = st.subscriptions :=
  (notify_frame key e st).2.1

theorem notify_subscribers (key : String) (e : entry) (st : DBState) :
    (notify key e st).subscribers = st.subscribers :=
  (notify_frame key e st).2.2.1

theorem notify_buflen (key : String) (e : entry) (st : DBState) :
    (notify key e st).buflen = st.buflen :=
  (notify_frame key e st).2.2.2.1

theorem notify_nextChan (key : String) (e : entry) (st : DBState) :
    (notify key e st).nextChan = st.nextChan :=
  (notify_frame key e st).2.2.2.2

theorem setKey_values (st : DBState) (k v : String) :
    (setKey st k v).values = ainsert st.values k ⟨v, curRev st k + 1⟩ := by
  unfold setKey
  rw [notify_values]
  unfold getE curRev
  cases h : alookup st.values k <;> simp [entry.zero, h]

theorem setKey_frame (st : DBState) (k v : String) :
    (setKey st k v).subscriptions = st.subscriptions ∧
    (setKey st k v).subscribers = st.subscribers ∧
    (setKey st k v).buflen = st.buflen ∧
    (setKey st k v).nextChan = st.nextChan := by
  unfold setKey
  rw [notify_subscriptions, notify_subscribers, notify_buflen, notify_nextChan]
  exact ⟨rfl, rfl, rfl, rfl⟩

theorem update_fail (st : DBState) (k v : String) (r : Int)
    (h : curRev st k + 1 ≠ r) : update st k v r = (false, st) := by
  unfold curRev at h
  unfold update getE
  cases hv : alookup st.values k with
  | none =>
      rw [hv] at h
      simp only [] at h
      simp [hv]
      omega
  | some e =>
      rw [hv] at h
      simp only [] at h
      simp [hv, h]

theorem update_succ (st : DBState) (k v : String) (r : Int)
    (h : curRev st k + 1 = r) :
    update st k v r =
      (true, notify k ⟨v, r⟩ { st with values := ainsert st.values k ⟨v, r⟩ }) := by
  unfold curRev at h
  unfold update getE
  cases hv : alookup st.values k with
  | none =>
      rw [hv] at h
      simp only [] at h
      simp [hv, h.symm]
  | some e =>
      rw [hv] at h
      simp only [] at h
      simp [hv, h]

/-- C1: `Update(key, value, r)` returns true iff `r` equals `current + 1`,
where `current` is the stored revision if the key exists and -1 otherwise;
on success it stores the entry `{value, revision := r}`; on failure it
returns false and the state (in particular the store) is unchanged. -/
theorem update_cas_spec (st : DBState) (k v : String) (r : Int) :
    ((update st k v r).1 = true ↔ r = curRev st k + 1) ∧
    (r = curRev st k + 1 → alookup (update st k v r).2.values k = some ⟨v, r⟩) ∧
    (r ≠ curRev st k + 1 → (update st k v r).2 = st) := by
  by_cases h : curRev st k + 1 = r
  · rw [update_succ st k v r h]
    refine ⟨by simp [h.symm], fun _ => ?_, fun hne => (hne h.symm).elim⟩
    rw [notify_values]
    simp [alookup_ainsert]
  · rw [update_fail st k v r h]
    refine ⟨?_, fun hr => (h hr.symm).elim, fun _ => rfl⟩
    constructor
    · intro hh; cases hh
    · intro hr; exact (h hr.symm).elim

theorem update_cas_spec_witness :
    (update (initDB 0) "/k" "v" 0).1 = true ∧
    alookup (update (initDB 0) "/k" "v" 0).2.values "/k" = some ⟨"v", 0⟩ ∧
    (update (initDB 0) "/k" "v" 5).2 = initDB 0 :=
  ⟨(update_cas_spec (initDB 0) "/k" "v" 0).1.mpr (by decide),
   (update_cas_spec (initDB 0) "/k" "v" 0).2.1 (by decide),
   (update_cas_spec (initDB 0) "/k" "v" 5).2.2 (by decide)⟩

/-- C3 counterexample: for key `/a/b/c` the notify loop checks the root
prefix `/` too — the checked list is not the claimed three-element one,
and a subscriber registered at `/` (which the exported `Subscribe`
accepts) really does receive the event. -/
theorem notify_root_checked_cex :
    "/" ∈ notifyParts "/a/b/c" ∧
    notifyParts "/a/b/c" ≠ ["/a/b/c", "/a/b/", "/a/"] ∧
    queueOf (setKey (subscribeOp (initDB 0) "/").2 "/a/b/c" "x") 0 =
      [⟨"/a/b/c", "x", 0⟩] := by decide

/-- C3 amended: when notify runs for a mutated key it checks subscription
prefixes starting at the full key and repeatedly truncating at the last '/'
before the previous truncation point, and for key `/a/b/c` the prefixes
checked, in order, are exactly `/a/b/c`, `/a/b/`, `/a/`, and finally the
root `/` — the root path is checked for subscribers like any other
prefix. -/
theorem notifyParts_spec :
    notifyParts "/a/b/c" = ["/a/b/c", "/a/b/", "/a/", "/"] ∧
    notifyParts "/a/b" = ["/a/b", "/a/", "/"] := by decide

/-- C7: `Delete(key)` removes the key's entry if present and is a no-op if
absent; it has no validate guard so it never fails, it touches no channel
buffer (no event is delivered), and it leaves the subscription registry and
every other key's entry unchanged. -/
theorem delete_spec (st : DBState) (k k' : String) (h : k' ≠ k) :
    alookup (DeleteOp st k).values k = none ∧
    alookup (DeleteOp st k).values k' = alookup st.values k' ∧
    (DeleteOp st k).subscriptions = st.subscriptions ∧
    (DeleteOp st k).subscribers = st.subscribers ∧
    (DeleteOp st k).queues = st.queues := by
  unfold DeleteOp deleteKey
  refine ⟨?_, ?_, rfl, rfl, rfl⟩
  · simp [alookup_aerase]
  · simp [alookup_aerase, h]

theorem delete_spec_witness :
    alookup (DeleteOp (setKey (initDB 0) "/a" "x") "/a").values "/a" = none ∧
    alookup (DeleteOp (setKey (initDB 0) "/a" "x") "/a").values "/b" =
      alookup (setKey (initDB 0) "/a" "x").values "/b" ∧
    (DeleteOp (setKey (initDB 0) "/a" "x") "/a").subscriptions =
      (setKey (initDB 0) "/a" "x").subscriptions ∧
    (DeleteOp (setKey (initDB 0) "/a" "x") "/a").subscribers =
      (setKey (initDB 0) "/a" "x").subscribers ∧
    (DeleteOp (setKey (initDB 0) "/a" "x") "/a").queues =
      (setKey (initDB 0) "/a" "x").queues :=
  delete_spec (setKey (initDB 0) "/a" "x") "/a" "/b" (by decide)

theorem validate_iff (k : String) :
    validate k = true ↔ k ≠ "" ∧ k.data.head? = some '/' := by
  unfold validate
  cases k with
  | mk d =>
      cases d with
      | nil => simp
      | cons c rest =>
          have hne : String.mk (c :: rest) ≠ "" := by
            intro hh
            have : (String.mk (c :: rest)).data = ("" : String).data := by rw [hh]
            simp at this
          simp [hne]

/-- C8: the exported Get, Set, Update and Subscribe panic during validation
iff the argument is empty or does not start with '/'; every non-empty
slash-prefixed string — including ones that break the full key syntax,
such as trailing '/' or a '//' — passes the guard and the operation
produces its normal response. -/
theorem validate_guard_spec (st : DBState) (k v : String) (r : Int) :
    (validate k = true ↔ k ≠ "" ∧ k.data.head? = some '/') ∧
    ((GetOp st k).isSome = true ↔ validate k = true) ∧
    ((SetOp st k v).isSome = true ↔ validate k = true) ∧
    ((UpdateOp st k v r).isSome = true ↔ validate k = true) ∧
    ((SubscribeOp st k).isSome = true ↔ validate k = true) ∧
    validate "/a//b/" = true ∧ validate "/a/" = true ∧
    validate "" = false ∧ validate "x/y" = false := by
  refine ⟨validate_iff k, ?_, ?_, ?_, ?_, by decide, by decide, by decide, by decide⟩
  · by_cases h : validate k = true <;> simp [GetOp, h]
  · by_cases h : validate k = true <;> simp [SetOp, h]
  · by_cases h : validate k = true <;> simp [UpdateOp, h]
  · by_cases h : validate k = true <;> simp [SubscribeOp, h]

theorem curRev_of_lookup (st : DBState) (k : String) (e : entry)
    (h : alookup st.values k = some e) : curRev st k = e.revision := by
  unfold curRev
  rw [h]

theorem curRev_setKey (st : DBState) (k v : String) :
    curRev (setKey st k v) k = curRev st k + 1 := by
  have h : alookup (setKey st k v).values k = some ⟨v, curRev st k + 1⟩ := by
    rw [setKey_values, alookup_ainsert]
    simp
  rw [curRev_of_lookup _ _ _ h]

theorem curRev_update_succ (st : DBState) (k v : String) (r : Int)
    (h : curRev st k + 1 = r) : curRev (update st k v r).2 k = r := by
  rw [update_succ st k v r h]
  have h2 : alookup (notify k ⟨v, r⟩
      { st with values := ainsert st.values k ⟨v, r⟩ }).values k = some ⟨v, r⟩ := by
    rw [notify_values]
    show alookup (ainsert st.values k ⟨v, r⟩) k = some ⟨v, r⟩
    rw [alookup_ainsert]
    simp
  rw [curRev_of_lookup _ _ _ h2]

theorem succ_step (st st' : DBState) (k : String) (rest : List Op)
    (hcur : curRev st' k = curRev st k + 1)
    (h : ∃ n, runObs st' k rest = (List.range n).map (fun i : Nat => curRev st' k + 1 + (i : Int))) :
    ∃ n, curRev st' k :: runObs st' k rest =
      (List.range n).map (fun i : Nat => curRev st k + 1 + (i : Int)) := by
  obtain ⟨n, hn⟩ := h
  refine ⟨n + 1, ?_⟩
  rw [hn, hcur, List.range_succ_eq_map, List.map_cons, List.map_map]
  have hfun : ((fun i : Nat => curRev st k + 1 + (i : Int)) ∘ Nat.succ) =
      (fun i : Nat => curRev st k + 1 + 1 + (i : Int)) := by
    funext i
    simp [Function.comp]
    ring
  rw [hfun]
  simp

theorem runObs_shape (st : DBState) (k : String) (ops : List Op) :
    ∃ n, runObs st k ops = (List.range n).map (fun i : Nat => curRev st k + 1 + (i : Int)) := by
  induction ops generalizing st with
  | nil => exact ⟨0, by simp [runObs]⟩
  | cons op rest ih =>
      cases op with
      | setV v =>
          have hrw : runObs st k (Op.setV v :: rest) =
              curRev (setKey st k v) k :: runObs (setKey st k v) k rest := by
            simp [runObs, applyOp]
          rw [hrw]
          exact succ_step st (setKey st k v) k rest (curRev_setKey st k v) (ih _)
      | updV v r =>
          by_cases hs : curRev st k + 1 = r
          · have hrw : runObs st k (Op.updV v r :: rest) =
                curRev (update st k v r).2 k :: runObs (update st k v r).2 k rest := by
              simp [runObs, applyOp, update_succ st k v r hs]
            rw [hrw]
            have hcur : curRev (update st k v r).2 k = curRev st k + 1 := by
              rw [curRev_update_succ st k v r hs, ← hs]
            exact succ_step st _ k rest hcur (ih _)
          · have hrw : runObs st k (Op.updV v r :: rest) = runObs st k rest := by
              simp [runObs, applyOp, update_fail st k v r hs]
            rw [hrw]
            exact ih st

/-- C2: when the key is absent, the revisions observed by a sequence of
successful mutations of it (every Set, and every Update whose CAS
succeeds; failed Updates change nothing and observe nothing) are exactly
0, 1, 2, ... in call order — the first successful mutation stores 0 and
each later one increases the revision by exactly 1. -/
theorem revisions_monotonic (st : DBState) (k : String) (ops : List Op)
    (h : alookup st.values k = none) :
    runObs st k ops =
      (List.range (runObs st k ops).length).map (fun i : Nat => (i : Int)) := by
  obtain ⟨n, hn⟩ := runObs_shape st k ops
  have hc : curRev st k = -1 := by unfold curRev; rw [h]
  have hfun : (fun i : Nat => curRev st k + 1 + (i : Int)) = (fun i : Nat => (i : Int)) := by
    funext i
    rw [hc]
    ring
  rw [hn, hfun]
  simp

theorem revisions_monotonic_witness :
    runObs (initDB 0) "/k" [Op.setV "a", Op.updV "b" 1, Op.updV "x" 99, Op.setV "c"] =
      (List.range (runObs (initDB 0) "/k"
        [Op.setV "a", Op.updV "b" 1, Op.updV "x" 99, Op.setV "c"]).length).map
        (fun i : Nat => (i : Int)) ∧
    runObs (initDB 0) "/k" [Op.setV "a", Op.updV "b" 1, Op.updV "x" 99, Op.setV "c"] =
      [0, 1, 2] :=
  ⟨revisions_monotonic (initDB 0) "/k" _ rfl, by decide⟩

/-- C4: the `/a/` subtree subscriber receives one event for each of
`/a/b`, `/a/c`, `/a/b/c` (in order) and none for `/x`; the exact-key
subscriber at `/a/b` receives only the `/a/b` event, not the one for
`/a/b/c`. -/
theorem hierarchical_delivery :
    queueOf demoSubtree 0 =
      [⟨"/a/b", "1", 0⟩, ⟨"/a/c", "2", 0⟩, ⟨"/a/b/c", "3", 0⟩] ∧
    queueOf demoExact 0 = [⟨"/a/b", "1", 0⟩] := by decide

theorem sendEvt_queueOf_ne (st : DBState) (ch ch' : ChanId) (u : Update)
    (h : ch' ≠ ch) : queueOf (sendEvt st ch u) ch' = queueOf st ch' := by
  unfold sendEvt
  cases hq : alookup st.queues ch with
  | none => rfl
  | some q =>
      by_cases hl : q.length < st.buflen
      · simp [hl, queueOf, alookup_ainsert, h]
      · simp [hl]

theorem sendEvt_queueOf (st : DBState) (ch : ChanId) (u : Update) :
    queueOf (sendEvt st ch u) ch = queueOf st ch ∨
    queueOf (sendEvt st ch u) ch = queueOf st ch ++ [u] := by
  unfold sendEvt
  cases hq : alookup st.queues ch with
  | none => exact Or.inl rfl
  | some q =>
      by_cases hl : q.length < st.buflen
      · right
        simp [hl, queueOf, alookup_ainsert, hq]
      · left
        simp [hl]

theorem sendEvt_full (st : DBState) (ch : ChanId) (u : Update)
    (h : st.buflen ≤ (queueOf st ch).length) : sendEvt st ch u = st := by
  unfold sendEvt
  cases hq : alookup st.queues ch with
  | none => rfl
  | some q =>
      have hnl : ¬q.length < st.buflen := by
        unfold queueOf at h
        rw [hq] at h
        simp at h
        omega
      simp [hnl]

theorem notifyFan_spec (u : Update) (m seen : List ChanId) (st : DBState) (ch : ChanId) :
    (ch ∈ seen → ch ∈ (notifyFan u m seen st).1) ∧
    (ch ∈ seen → queueOf (notifyFan u m seen st).2 ch = queueOf st ch) ∧
    (ch ∉ (notifyFan u m seen st).1 → queueOf (notifyFan u m seen st).2 ch = queueOf st ch) ∧
    (queueOf (notifyFan u m seen st).2 ch = queueOf st ch ∨
     queueOf (notifyFan u m seen st).2 ch = queueOf st ch ++ [u]) := by
  induction m generalizing seen st with
  | nil => exact ⟨fun h => h, fun _ => rfl, fun _ => rfl, Or.inl rfl⟩
  | cons s rest ih =>
      by_cases hs : s ∈ seen
      · have hrw : notifyFan u (s :: rest) seen st = notifyFan u rest seen st := by
          simp [notifyFan, hs]
        rw [hrw]
        exact ih seen st
      · have hrw : notifyFan u (s :: rest) seen st =
            notifyFan u rest (s :: seen) (sendEvt st s u) := by
          simp [notifyFan, hs]
        rw [hrw]
        obtain ⟨i1, i2, i3, i4⟩ := ih (s :: seen) (sendEvt st s u)
        by_cases hcs : ch = s
        · subst hcs
          refine ⟨fun hmem => (hs hmem).elim, fun hmem => (hs hmem).elim, ?_, ?_⟩
          · intro hnot
            exact (hnot (i1 (List.mem_cons_self _ _))).elim
          · have he := i2 (List.mem_cons_self _ _)
            rcases sendEvt_queueOf st ch u with hq | hq
            · exact Or.inl (he.trans hq)
            · exact Or.inr (he.trans hq)
        · have hqe : queueOf (sendEvt st s u) ch = queueOf st ch :=
            sendEvt_queueOf_ne st s ch u hcs
          refine ⟨?_, ?_, ?_, ?_⟩
          · intro hmem
            exact i1 (List.mem_cons_of_mem _ hmem)
          · intro hmem
            rw [i2 (List.mem_cons_of_mem _ hmem), hqe]
          · intro hnot
            rw [i3 hnot, hqe]
          · rcases i4 with hq | hq
            · exact Or.inl (hq.trans (by rw [hqe]))
            · exact Or.inr (hq.trans (by rw [hqe]))

theorem notifyLoop_spec (u : Update) (ps : List String) (seen : List ChanId)
    (st : DBState) (ch : ChanId) :
    (ch ∈ seen → queueOf (notifyLoop u ps seen st) ch = queueOf st ch) ∧
    (queueOf (notifyLoop u ps seen st) ch = queueOf st ch ∨
     queueOf (notifyLoop u ps seen st) ch = queueOf st ch ++ [u]) := by
  induction ps generalizing seen st with
  | nil => exact ⟨fun _ => rfl, Or.inl rfl⟩
  | cons p rest ih =>
      have hrw : notifyLoop u (p :: rest) seen st =
          notifyLoop u rest
            (notifyFan u ((alookup st.subscriptions p).getD []) seen st).1
            (notifyFan u ((alookup st.subscriptions p).getD []) seen st).2 := by
        simp [notifyLoop]
      rw [hrw]
      obtain ⟨f1, f2, f3, f4⟩ :=
        notifyFan_spec u ((alookup st.subscriptions p).getD []) seen st ch
      obtain ⟨l1, l2⟩ := ih (notifyFan u ((alookup st.subscriptions p).getD []) seen st).1
        (notifyFan u ((alookup st.subscriptions p).getD []) seen st).2
      refine ⟨?_, ?_⟩
      · intro hmem
        rw [l1 (f1 hmem), f2 hmem]
      · by_cases hmem : ch ∈ (notifyFan u ((alookup st.subscriptions p).getD []) seen st).1
        · rw [l1 hmem]
          exact f4
        · rcases l2 with hq | hq
          · exact Or.inl (hq.trans (f3 hmem))
          · exact Or.inr (hq.trans (by rw [f3 hmem]))

/-- C5: within one notify call every handle receives the event at most
once — its buffer is left unchanged or gets exactly one copy of the event
appended, even when the handle is registered at several matching prefixes —
and concretely a single handle subscribed at both `/a/` and `/a/b/`
receives exactly one event for a mutation of `/a/b/c`. -/
theorem notify_dedup (key : String) (e : entry) (st : DBState) (ch : ChanId) :
    (queueOf (notify key e st) ch = queueOf st ch ∨
     queueOf (notify key e st) ch = queueOf st ch ++ [⟨key, e.value, e.revision⟩]) ∧
    queueOf demoDual 0 = [⟨"/a/b/c", "v", 0⟩] := by
  constructor
  · unfold notify
    exact (notifyLoop_spec _ _ _ _ _).2
  · decide

theorem deliverSeq_take (ch : ChanId) (evs : List Update) (st : DBState)
    (q : List Update) (h : alookup st.queues ch = some q) :
    queueOf (deliverSeq st ch evs) ch = q ++ evs.take (st.buflen - q.length) := by
  induction evs generalizing st q with
  | nil => simp [deliverSeq, queueOf, h]
  | cons u rest ih =>
      simp only [deliverSeq]
      by_cases hl : q.length < st.buflen
      · have hst : sendEvt st ch u =
            { st with queues := ainsert st.queues ch (q ++ [u]) } := by
          unfold sendEvt
          rw [h]
          simp [hl]
        rw [hst]
        have h2 : alookup ({ st with queues := ainsert st.queues ch (q ++ [u]) }).queues ch
            = some (q ++ [u]) := by
          show alookup (ainsert st.queues ch (q ++ [u])) ch = some (q ++ [u])
          rw [alookup_ainsert]
          simp
        rw [ih _ _ h2]
        have hb : st.buflen - q.length = (st.buflen - (q.length + 1)) + 1 := by omega
        rw [hb]
        simp [List.take_succ_cons]
      · have hst : sendEvt st ch u = st := by
          unfold sendEvt
          rw [h]
          simp [hl]
        rw [hst, ih _ _ h]
        have hb : st.buflen - q.length = 0 := by omega
        rw [hb]
        simp

/-- C6: delivery never blocks the mutating caller: an event sent to a full
buffer is dropped and the state is completely unchanged; delivering to one
handle never touches another handle's buffer; and delivering `buflen + 1`
events to a handle whose buffer starts empty enqueues exactly the first
`buflen` of them, dropping the one left over.  Concretely, with capacity 1
the second of two events under `/s/` is dropped while the first stays. -/
theorem backpressure_spec (st : DBState) (ch ch' : ChanId) (u : Update)
    (evs : List Update) :
    (st.buflen ≤ (queueOf st ch).length → sendEvt st ch u = st) ∧
    (ch' ≠ ch → queueOf (sendEvt st ch u) ch' = queueOf st ch') ∧
    (alookup st.queues ch = some [] → evs.length = st.buflen + 1 →
      queueOf (deliverSeq st ch evs) ch = evs.take st.buflen) ∧
    queueOf demoDrop 0 = [⟨"/s/x", "1", 0⟩] := by
  refine ⟨sendEvt_full st ch u, fun hne => sendEvt_queueOf_ne st ch ch' u hne, ?_, by decide⟩
  intro hq _
  have hd := deliverSeq_take ch evs st [] hq
  simpa using hd

theorem backpressure_spec_witness :
    sendEvt (setKey (subscribeOp (initDB 1) "/s/").2 "/s/x" "1") 0 ⟨"/s/y", "2", 0⟩ =
      setKey (subscribeOp (initDB 1) "/s/").2 "/s/x" "1" ∧
    queueOf (sendEvt (subscribeOp (initDB 1) "/s/").2 0 ⟨"/k", "v", 0⟩) 1 =
      queueOf (subscribeOp (initDB 1) "/s/").2 1 ∧
    queueOf (deliverSeq (subscribeOp (initDB 1) "/s/").2 0
        [⟨"/k", "a", 0⟩, ⟨"/k", "b", 1⟩]) 0 =
      [⟨"/k", "a", 0⟩, ⟨"/k", "b", 1⟩].take (subscribeOp (initDB 1) "/s/").2.buflen :=
  ⟨(backpressure_spec (setKey (subscribeOp (initDB 1) "/s/").2 "/s/x" "1") 0 1
      ⟨"/s/y", "2", 0⟩ []).1 (by decide),
   (backpressure_spec (subscribeOp (initDB 1) "/s/").2 0 1 ⟨"/k", "v", 0⟩ []).2.1
      (by decide),
   (backpressure_spec (subscribeOp (initDB 1) "/s/").2 0 1 ⟨"/k", "v", 0⟩
      [⟨"/k", "a", 0⟩, ⟨"/k", "b", 1⟩]).2.2.1 (by decide) (by decide)⟩

theorem deleteKey_registry (st : DBState) (k : String) :
    (deleteKey st k).subscriptions = st.subscriptions ∧
    (deleteKey st k).subscribers = st.subscribers ∧
    (deleteKey st k).nextChan = st.nextChan :=
  ⟨rfl, rfl, rfl⟩

theorem update_registry (st : DBState) (k v : String) (r : Int) :
    (update st k v r).2.subscriptions = st.subscriptions ∧
    (update st k v r).2.subscribers = st.subscribers ∧
    (update st k v r).2.nextChan = st.nextChan := by
  by_cases hs : curRev st k + 1 = r
  · rw [update_succ st k v r hs]
    exact ⟨(notify_subscriptions _ _ _).trans rfl, (notify_subscribers _ _ _).trans rfl,
           (notify_nextChan _ _ _).trans rfl⟩
  · rw [update_fail st k v r hs]
    exact ⟨rfl, rfl, rfl⟩

theorem RegInv_congr (a b : DBState) (hsub : a.subscriptions = b.subscriptions)
    (hch : a.subscribers = b.subscribers) (hn : a.nextChan = b.nextChan)
    (h : RegInv b) : RegInv a := by
  unfold RegInv at h ⊢
  rw [hsub, hch, hn]
  exact h

theorem regInv_init (b : Nat) : RegInv (initDB b) := by
  refine ⟨?_, ?_, ?_, ?_, ?_⟩
  · intro p m hm
    simp [initDB, alookup] at hm
  · intro p m hm
    simp [initDB, alookup] at hm
  · intro p m ch hm hmem
    simp [initDB, alookup] at hm
  · intro ch s hsv
    simp [initDB, alookup] at hsv
  · intro ch s hsv
    simp [initDB, alookup] at hsv

theorem subscribeOp_subscribers (st : DBState) (p : String) :
    (subscribeOp st p).2.subscribers =
      ainsert st.subscribers st.nextChan ⟨p, some st.nextChan⟩ := rfl

theorem subscribeOp_nextChan (st : DBState) (p : String) :
    (subscribeOp st p).2.nextChan = st.nextChan + 1 := rfl

theorem subscribeOp_subscriptions (st : DBState) (p : String)
    (h : st.nextChan ∉ (alookup st.subscriptions p).getD []) :
    (subscribeOp st p).2.subscriptions =
      ainsert st.subscriptions p
        ((alookup st.subscriptions p).getD [] ++ [st.nextChan]) := by
  unfold subscribeOp subscribeReg
  simp [h]

theorem unsubscribeReg_unregistered (st : DBState) (ch : ChanId)
    (hs : alookup st.subscribers ch = none)
    (hne : ∀ p m, alookup st.subscriptions p = some m → m ≠ []) :
    unsubscribeReg st ch = st := by
  unfold unsubscribeReg
  rw [hs]
  simp only [Option.getD_none, Subscriber.zero]
  rw [aerase_absent st.subscribers ch hs]
  cases hm : alookup st.subscriptions "" with
  | none =>
      simp only [hm, Option.getD_none, List.length_nil]
      rw [if_pos trivial, aerase_absent st.subscriptions "" hm]
  | some m0 =>
      simp only [hm, Option.getD_some]
      have hm0 : m0 ≠ [] := hne _ _ hm
      have hl : ¬m0.length = 0 := fun hh => hm0 (List.length_eq_zero.mp hh)
      rw [if_neg hl, ainsert_lookup_self st.subscriptions _ m0 hm]

theorem unsubscribeReg_registered (st : DBState) (ch : ChanId) (s : Subscriber)
    (hs : alookup st.subscribers ch = some s) (hch : s.ch = some ch) :
    unsubscribeReg st ch =
      { st with
        subscribers := aerase st.subscribers ch,
        subscriptions :=
          if (((alookup st.subscriptions s.path).getD []).erase ch).length = 0
          then aerase st.subscriptions s.path
          else ainsert st.subscriptions s.path
            (((alookup st.subscriptions s.path).getD []).erase ch) } := by
  unfold unsubscribeReg
  rw [hs]
  simp only [Option.getD_some]
  rw [hch]

theorem RegInv_subscribeOp (st : DBState) (p : String) (h : RegInv st) :
    RegInv (subscribeOp st p).2 := by
  obtain ⟨h1, h2, h3, h4, h5⟩ := h
  have hfresh_mem : ∀ q m', alookup st.subscriptions q = some m' → st.nextChan ∉ m' := by
    intro q m' hm hmem
    exact absurd (h5 _ _ (h3 _ _ _ hm hmem)) (lt_irrefl _)
  have hnotin : st.nextChan ∉ (alookup st.subscriptions p).getD [] := by
    cases hm : alookup st.subscriptions p with
    | none => simp
    | some m0 => simpa using hfresh_mem p m0 hm
  have hsubs := subscribeOp_subscriptions st p hnotin
  have hsbrs := subscribeOp_subscribers st p
  have hnext := subscribeOp_nextChan st p
  have hgdnd : ((alookup st.subscriptions p).getD []).Nodup := by
    cases hm : alookup st.subscriptions p with
    | none => simp
    | some m0 => simpa using h2 _ _ hm
  have hgdlk : ∀ ch', ch' ∈ (alookup st.subscriptions p).getD [] →
      alookup st.subscriptions p = some ((alookup st.subscriptions p).getD []) := by
    intro ch' hin
    cases hm : alookup st.subscriptions p with
    | none => rw [hm] at hin; simp at hin
    | some m0 => rfl
  refine ⟨?_, ?_, ?_, ?_, ?_⟩
  · intro p' m' hm'
    rw [hsubs, alookup_ainsert] at hm'
    by_cases hp : p' = p
    · rw [if_pos hp] at hm'
      injection hm' with hm'
      rw [← hm']
      simp
    · rw [if_neg hp] at hm'
      exact h1 _ _ hm'
  · intro p' m' hm'
    rw [hsubs, alookup_ainsert] at hm'
    by_cases hp : p' = p
    · rw [if_pos hp] at hm'
      injection hm' with hm'
      rw [← hm']
      simp [List.nodup_append, hgdnd, hnotin]
    · rw [if_neg hp] at hm'
      exact h2 _ _ hm'
  · intro p' m' ch' hm' hmem
    rw [hsubs, alookup_ainsert] at hm'
    rw [hsbrs, alookup_ainsert]
    by_cases hp : p' = p
    · subst hp
      rw [if_pos rfl] at hm'
      injection hm' with hm'
      rw [← hm'] at hmem
      rcases List.mem_append.mp hmem with hin | hin
      · have hlk := hgdlk ch' hin
        have hold := h3 _ _ _ hlk hin
        have hne : ¬ch' = st.nextChan := by
          intro he
          rw [he] at hin
          exact hnotin hin
        rw [if_neg hne]
        exact hold
      · have he : ch' = st.nextChan := by simpa using hin
        subst he
        rw [if_pos rfl]
    · rw [if_neg hp] at hm'
      have hold := h3 _ _ _ hm' hmem
      have hne : ¬ch' = st.nextChan := by
        intro he
        rw [he] at hold
        exact absurd (h5 _ _ hold) (lt_irrefl _)
      rw [if_neg hne]
      exact hold
  · intro ch' s hs'
    rw [hsbrs, alookup_ainsert] at hs'
    by_cases hc : ch' = st.nextChan
    · subst hc
      rw [if_pos rfl] at hs'
      injection hs' with hs'
      rw [← hs']
      refine ⟨rfl, ?_⟩
      refine ⟨(alookup st.subscriptions p).getD [] ++ [st.nextChan], ?_, ?_⟩
      · rw [hsubs, alookup_ainsert, if_pos rfl]
      · simp
    · rw [if_neg hc] at hs'
      obtain ⟨hsch, m, hm, hmm⟩ := h4 _ _ hs'
      refine ⟨hsch, ?_⟩
      rw [hsubs]
      by_cases hsp : s.path = p
      · refine ⟨(alookup st.subscriptions p).getD [] ++ [st.nextChan], ?_, ?_⟩
        · rw [alookup_ainsert, if_pos hsp]
        · rw [hsp] at hm
          rw [hm]
          simp [hmm]
      · exact ⟨m, by rw [alookup_ainsert, if_neg hsp]; exact hm, hmm⟩
  · intro ch' s hs'
    rw [hsbrs, alookup_ainsert] at hs'
    rw [hnext]
    by_cases hc : ch' = st.nextChan
    · rw [hc]
      exact Nat.lt_succ_self _
    · rw [if_neg hc] at hs'
      exact Nat.lt_succ_of_lt (h5 _ _ hs')

theorem RegInv_unsubscribeReg (st : DBState) (ch : ChanId) (h : RegInv st) :
    RegInv (unsubscribeReg st ch) := by
  obtain ⟨h1, h2, h3, h4, h5⟩ := h
  cases hs : alookup st.subscribers ch with
  | none =>
      rw [unsubscribeReg_unregistered st ch hs h1]
      exact ⟨h1, h2, h3, h4, h5⟩
  | some s =>
      obtain ⟨hch, m0, hm0, hmem0⟩ := h4 _ _ hs
      have hgd : (alookup st.subscriptions s.path).getD [] = m0 := by
        rw [hm0]
        rfl
      have hsubs : (unsubscribeReg st ch).subscriptions =
          (if (m0.erase ch).length = 0
           then aerase st.subscriptions s.path
           else ainsert st.subscriptions s.path (m0.erase ch)) := by
        rw [unsubscribeReg_registered st ch s hs hch, hgd]
      have hsbrs : (unsubscribeReg st ch).subscribers = aerase st.subscribers ch := by
        rw [unsubscribeReg_registered st ch s hs hch]
      have hnext : (unsubscribeReg st ch).nextChan = st.nextChan := by
        rw [unsubscribeReg_registered st ch s hs hch]
      have hnd0 : m0.Nodup := h2 _ _ hm0
      have huniq : ∀ p' ch', alookup st.subscribers ch' = some ⟨p', some ch'⟩ →
          ch' = ch → p' = s.path := by
        intro p' ch' hl he
        subst he
        rw [hs] at hl
        injection hl with hl
        rw [hl]
      by_cases hlen : (m0.erase ch).length = 0
      · have hE : m0.erase ch = [] := List.length_eq_zero.mp hlen
        rw [if_pos hlen] at hsubs
        refine ⟨?_, ?_, ?_, ?_, ?_⟩
        · intro p' m' hm'
          rw [hsubs, alookup_aerase] at hm'
          by_cases hp : p' = s.path
          · rw [if_pos hp] at hm'
            cases hm'
          · rw [if_neg hp] at hm'
            exact h1 _ _ hm'
        · intro p' m' hm'
          rw [hsubs, alookup_aerase] at hm'
          by_cases hp : p' = s.path
          · rw [if_pos hp] at hm'
            cases hm'
          · rw [if_neg hp] at hm'
            exact h2 _ _ hm'
        · intro p' m' ch' hm' hmem
          rw [hsubs, alookup_aerase] at hm'
          rw [hsbrs, alookup_aerase]
          by_cases hp : p' = s.path
          · rw [if_pos hp] at hm'
            cases hm'
          · rw [if_neg hp] at hm'
            have hold := h3 _ _ _ hm' hmem
            have hne : ¬ch' = ch := fun he => hp (huniq p' ch' hold he)
            rw [if_neg hne]
            exact hold
        · intro ch' s' hs'
          rw [hsbrs, alookup_aerase] at hs'
          by_cases hc : ch' = ch
          · rw [if_pos hc] at hs'
            cases hs'
          · rw [if_neg hc] at hs'
            obtain ⟨hsch, m, hm, hmm⟩ := h4 _ _ hs'
            refine ⟨hsch, ?_⟩
            rw [hsubs]
            by_cases hsp : s'.path = s.path
            · rw [hsp] at hm
              rw [hm0] at hm
              injection hm with hm
              exfalso
              have hmm0 : ch' ∈ m0 := by rw [hm]; exact hmm
              have hin : ch' ∈ m0.erase ch := (List.mem_erase_of_ne hc).mpr hmm0
              rw [hE] at hin
              cases hin
            · exact ⟨m, by rw [alookup_aerase, if_neg hsp]; exact hm, hmm⟩
        · intro ch' s' hs'
          rw [hsbrs, alookup_aerase] at hs'
          rw [hnext]
          by_cases hc : ch' = ch
          · rw [if_pos hc] at hs'
            cases hs'
          · rw [if_neg hc] at hs'
            exact h5 _ _ hs'
      · rw [if_neg hlen] at hsubs
        refine ⟨?_, ?_, ?_, ?_, ?_⟩
        · intro p' m' hm'
          rw [hsubs, alookup_ainsert] at hm'
          by_cases hp : p' = s.path
          · rw [if_pos hp] at hm'
            injection hm' with hm'
            rw [← hm']
            intro he
            exact hlen (by rw [he]; rfl)
          · rw [if_neg hp] at hm'
            exact h1 _ _ hm'
        · intro p' m' hm'
          rw [hsubs, alookup_ainsert] at hm'
          by_cases hp : p' = s.path
          · rw [if_pos hp] at hm'
            injection hm' with hm'
            rw [← hm']
            exact hnd0.erase ch
          · rw [if_neg hp] at hm'
            exact h2 _ _ hm'
        · intro p' m' ch' hm' hmem
          rw [hsubs, alookup_ainsert] at hm'
          rw [hsbrs, alookup_aerase]
          by_cases hp : p' = s.path
          · rw [if_pos hp] at hm'
            injection hm' with hm'
            rw [← hm'] at hmem
            obtain ⟨hne, hin⟩ := (hnd0.mem_erase_iff).mp hmem
            have hold := h3 _ _ _ hm0 hin
            rw [if_neg hne]
            rw [hp]
            exact hold
          · rw [if_neg hp] at hm'
            have hold := h3 _ _ _ hm' hmem
            have hne : ¬ch' = ch := fun he => hp (huniq p' ch' hold he)
            rw [if_neg hne]
            exact hold
        · intro ch' s' hs'
          rw [hsbrs, alookup_aerase] at hs'
          by_cases hc : ch' = ch
          · rw [if_pos hc] at hs'
            cases hs'
          · rw [if_neg hc] at hs'
            obtain ⟨hsch, m, hm, hmm⟩ := h4 _ _ hs'
            refine ⟨hsch, ?_⟩
            rw [hsubs]
            by_cases hsp : s'.path = s.path
            · refine ⟨m0.erase ch, ?_, ?_⟩
              · rw [alookup_ainsert, if_pos hsp]
              · rw [hsp] at hm
                rw [hm0] at hm
                injection hm with hm
                have hmm0 : ch' ∈ m0 := by rw [hm]; exact hmm
                exact (List.mem_erase_of_ne hc).mpr hmm0
            · exact ⟨m, by rw [alookup_ainsert, if_neg hsp]; exact hm, hmm⟩
        · intro ch' s' hs'
          rw [hsbrs, alookup_aerase] at hs'
          rw [hnext]
          by_cases hc : ch' = ch
          · rw [if_pos hc] at hs'
            cases hs'
          · rw [if_neg hc] at hs'
            exact h5 _ _ hs'

theorem reachable_regInv (st : DBState) (h : Reachable st) : RegInv st := by
  induction h with
  | init b => exact regInv_init b
  | setR st k v hr hv ih =>
      exact RegInv_congr _ _ (setKey_frame st k v).1 (setKey_frame st k v).2.1
        (setKey_frame st k v).2.2.2 ih
  | updateR st k v r hr hv ih =>
      exact RegInv_congr _ _ (update_registry st k v r).1 (update_registry st k v r).2.1
        (update_registry st k v r).2.2 ih
  | deleteR st k hr ih =>
      exact RegInv_congr _ _ rfl rfl rfl ih
  | subscribeR st p hr hv ih => exact RegInv_subscribeOp st p ih
  | unsubscribeR st ch hr ih => exact RegInv_unsubscribeReg st ch ih

/-- C9: in every state reachable from a newly created empty database via
the public operations, the registry's two indexes agree: a channel belongs
to the subscriber set of a path exactly when the reverse index maps the
channel to that path — hence to at most one path — and no path is ever
mapped to an empty subscriber set. -/
theorem registry_bidirectional (st : DBState) (h : Reachable st) :
    (∀ p m, alookup st.subscriptions p = some m → m ≠ []) ∧
    (∀ ch p, (∃ m, alookup st.subscriptions p = some m ∧ ch ∈ m) ↔
      (∃ s, alookup st.subscribers ch = some s ∧ s.path = p)) ∧
    (∀ ch p q, (∃ m, alookup st.subscriptions p = some m ∧ ch ∈ m) →
      (∃ m, alookup st.subscriptions q = some m ∧ ch ∈ m) → p = q) := by
  obtain ⟨h1, h2, h3, h4, h5⟩ := reachable_regInv st h
  have hmain : ∀ ch p, (∃ m, alookup st.subscriptions p = some m ∧ ch ∈ m) ↔
      (∃ s, alookup st.subscribers ch = some s ∧ s.path = p) := by
    intro ch p
    constructor
    · rintro ⟨m, hm, hmem⟩
      exact ⟨⟨p, some ch⟩, h3 _ _ _ hm hmem, rfl⟩
    · rintro ⟨s, hsv, hpath⟩
      obtain ⟨hsch, m, hm, hmem⟩ := h4 _ _ hsv
      rw [hpath] at hm
      exact ⟨m, hm, hmem⟩
  refine ⟨h1, hmain, ?_⟩
  intro ch p q hp hq
  obtain ⟨s1, hv1, hp1⟩ := (hmain ch p).mp hp
  obtain ⟨s2, hv2, hp2⟩ := (hmain ch q).mp hq
  rw [hv1] at hv2
  injection hv2 with hv2
  rw [← hp1, ← hp2, hv2]

theorem registry_bidirectional_witness :
    ∃ s, alookup (subscribeOp (initDB 0) "/a/").2.subscribers 0 = some s ∧
      s.path = "/a/" :=
  ((registry_bidirectional (subscribeOp (initDB 0) "/a/").2
      (Reachable.subscribeR (initDB 0) "/a/" (Reachable.init 0) (by decide))).2.1
    0 "/a/").mp ⟨[0], by decide, by decide⟩

/-- C10: calling Unsubscribe with a handle that is not currently
registered — never subscribed, or already unsubscribed — completes without
panicking (the operation has no validate guard) and leaves the whole
state, store and subscription registry included, exactly unchanged. -/
theorem unsubscribe_unregistered_noop (st : DBState) (ch : ChanId)
    (h : Reachable st) (hs : alookup st.subscribers ch = none) :
    UnsubscribeOp st ch = st := by
  have hi := reachable_regInv st h
  exact unsubscribeReg_unregistered st ch hs hi.1

theorem unsubscribe_unregistered_noop_witness :
    UnsubscribeOp (subscribeOp (initDB 0) "/a/").2 5 = (subscribeOp (initDB 0) "/a/").2 :=
  unsubscribe_unregistered_noop (subscribeOp (initDB 0) "/a/").2 5
    (Reachable.subscribeR (initDB 0) "/a/" (Reachable.init 0) (by decide)) (by decide)
